import Mathlib

/-!
Verification development for the U-Transformer training script
(`examples/unconditional_image_generation/train_unconditional.py`).

The script's core logic is shallowly embedded here:
tensors of rationals stand in for torch float tensors, a batch of images is a
list of flattened samples (`List (List ℚ)`), and the fallible parts of the
script (`int(...)` parses, indexing, `load_state`, the sampling pipeline)
return `Except`/`Option` values.  External collaborators (torch, accelerate,
diffusers) are modelled by their documented contracts at the call sites the
script uses, as noted at each definition.
-/

namespace TrainUnconditional

/-! ## Tensors and `_extract_into_tensor` (script lines 38-53)

A torch tensor is modelled as a shape together with a total indexing function
from multi-indices to rationals (out-of-shape indices are irrelevant to the
claims and read arbitrary values). -/

structure Tensor where
  shape : List Nat
  data : List Nat → ℚ

/-- Advanced indexing `arr[timesteps]` for a 1-D `arr` and a batch of integer
indices, followed by `.float()` (exact here).  Torch raises `IndexError`
when an index is out of range, modelled as `none`.  Indices are `ℕ` as in the
script, where timesteps are drawn from `randint(0, T)`. -/
def indexSelect1d (arr : List ℚ) (timesteps : List Nat) : Option Tensor :=
  if timesteps.all (fun t => t < arr.length) then
    some ⟨[timesteps.length],
      fun idx => (timesteps.map (fun t => arr.getD t 0)).getD (idx.getD 0 0) 0⟩
  else none

/-- One `res[..., None]`: append a singleton dimension; the element at
`(i₁, …, iₖ, 0)` is the old element at `(i₁, …, iₖ)`. -/
def unsqueezeLast (t : Tensor) : Tensor :=
  ⟨t.shape ++ [1], fun idx => t.data (idx.take t.shape.length)⟩

/-- Iterate `unsqueezeLast` a given number of times. -/
def unsqueezeTimes : Nat → Tensor → Tensor
  | 0, t => t
  | n + 1, t => unsqueezeTimes n (unsqueezeLast t)

/-- The loop `while len(res.shape) < len(broadcast_shape): res = res[..., None]`:
it appends exactly `k - rank` singleton dimensions. -/
def unsqueezeUntil (t : Tensor) (k : Nat) : Tensor :=
  unsqueezeTimes (k - t.shape.length) t

/-- `Tensor.expand`: dimensions of size 1 are broadcast, so the source index
in a size-1 dimension is pinned to 0. -/
def expandTensor (t : Tensor) (shape : List Nat) : Tensor :=
  ⟨shape, fun idx => t.data (List.zipWith (fun s i => if s = 1 then 0 else i) t.shape idx)⟩

/-- `_extract_into_tensor(arr, timesteps, broadcast_shape)` from the script:
index, unsqueeze until the rank matches, then expand. -/
def extractIntoTensor (arr : List ℚ) (timesteps : List Nat) (broadcastShape : List Nat) :
    Option Tensor :=
  (indexSelect1d arr timesteps).map
    (fun res => expandTensor (unsqueezeUntil res broadcastShape.length) broadcastShape)

/-- Read one element of a possibly-failed tensor computation. -/
def elemAt (t : Option Tensor) (idx : List Nat) : Option ℚ :=
  t.map (fun T => T.data idx)

/-! ## Training objective (script lines 700-712)

A batch tensor is a list of flattened samples.  `F.mse_loss` with
`reduction='none'` is the elementwise squared difference; the default
reduction is the mean over all elements.  The `(B,1,1,1)`-shaped
`_extract_into_tensor` result broadcast against the batch multiplies every
element of sample `i` by that sample's scalar weight, which is what the
per-sample `map` below does. -/

/-- Elementwise squared error, `F.mse_loss(…, reduction="none")` on one sample. -/
def mseLossNone (pred target : List ℚ) : List ℚ :=
  List.zipWith (fun p t => (p - t) ^ 2) pred target

/-- Elementwise squared error on a whole batch. -/
def mseLossNoneBatch (pred target : List (List ℚ)) : List (List ℚ) :=
  List.zipWith mseLossNone pred target

/-- `.mean()`: the mean over all elements of a batch tensor. -/
def tensorMean (x : List (List ℚ)) : ℚ :=
  x.flatten.sum / x.flatten.length

/-- `F.mse_loss(pred, target)` with the default mean reduction. -/
def mseLossMeanBatch (pred target : List (List ℚ)) : ℚ :=
  tensorMean (mseLossNoneBatch pred target)

/-- The `"sample"` branch (lines 703-710): per-sample
`alpha_t = alphas_cumprod[timesteps]` reshaped to `(B,1,1,1)`,
`snr_weights = alpha_t / (1 - alpha_t)`, weight times the unreduced squared
error, then `.mean()`. -/
def sampleLoss (alphasCumprod : List ℚ) (timesteps : List Nat)
    (pred clean : List (List ℚ)) : ℚ :=
  let alphaT := timesteps.map (fun t => alphasCumprod.getD t 0)
  let snrWeights := alphaT.map (fun a => a / (1 - a))
  tensorMean (List.zipWith (fun w es => es.map (fun e => w * e))
    snrWeights (mseLossNoneBatch pred clean))

/-- Modelled from the claim wording: the mean over all elements of
`snr_weight * (prediction - clean)^2`, the weight being
`alpha_bar_t / (1 - alpha_bar_t)` for the sample's own timestep, with no
normalisation by the weights (the denominator is the raw element count). -/
def sampleLossSpec (alphasCumprod : List ℚ) (timesteps : List Nat)
    (pred clean : List (List ℚ)) : ℚ :=
  let weightedSqErr :=
    (List.zipWith (fun t pc => List.zipWith
        (fun p c => (alphasCumprod.getD t 0 / (1 - alphasCumprod.getD t 0)) * (p - c) ^ 2)
        pc.1 pc.2)
      timesteps (pred.zip clean)).flatten
  weightedSqErr.sum / weightedSqErr.length

/-- Modelled from the spec wording for the `"epsilon"` mode: the unweighted
mean squared error between prediction and injected noise. -/
def unweightedMSE (pred target : List (List ℚ)) : ℚ :=
  let sqErr := (List.zipWith
    (fun ps ts => List.zipWith (fun p t => (p - t) ^ 2) ps ts) pred target).flatten
  sqErr.sum / sqErr.length

/-- The loss dispatch of lines 700-712: `"epsilon"` is plain MSE against the
noise, `"sample"` is the SNR-weighted loss against the clean images, anything
else raises `ValueError`. -/
def trainingLoss (predictionType : String) (alphasCumprod : List ℚ)
    (timesteps : List Nat) (modelOutput noise cleanImages : List (List ℚ)) :
    Except String ℚ :=
  if predictionType = "epsilon" then
    Except.ok (mseLossMeanBatch modelOutput noise)
  else if predictionType = "sample" then
    Except.ok (sampleLoss alphasCumprod timesteps modelOutput cleanImages)
  else
    Except.error ("Unsupported prediction type: " ++ predictionType)

/-! ## Checkpoint-resume state machine (script lines 626-627 and 641-663)

File names are `String`s; the Python string operations the script uses
(`split`, `startswith`, `os.path.basename`, `int(...)`) are embedded as
structural functions over the character list so that concrete runs reduce in
the kernel. -/

/-- Python `s.split(sep)` for a one-character separator. -/
def splitOnChar (sep : Char) : List Char → List (List Char)
  | [] => [[]]
  | c :: cs =>
    let rest := splitOnChar sep cs
    if c = sep then [] :: rest
    else
      match rest with
      | [] => [[c]]
      | r :: rs => (c :: r) :: rs

/-- Python `s.startswith(pat)`. -/
def listStartsWith : List Char → List Char → Bool
  | _, [] => true
  | [], _ :: _ => false
  | c :: cs, p :: ps => c = p && listStartsWith cs ps

def strStartsWith (s pat : String) : Bool :=
  listStartsWith s.data pat.data

/-- Digit run of a Python integer literal: nonempty, all decimal digits. -/
def parseDigits (cs : List Char) : Option Nat :=
  if cs ≠ [] ∧ cs.all Char.isDigit then
    some (cs.foldl (fun n c => 10 * n + (c.toNat - '0'.toNat)) 0)
  else none

/-- Python `int(s)` on a trimmed string: an optional sign followed by digits;
anything else raises `ValueError` (here `none`).  Underscore separators and
surrounding whitespace, which never occur in checkpoint names, are not
modelled. -/
def pyInt (s : String) : Option Int :=
  match s.data with
  | '-' :: rest => (parseDigits rest).map (fun n => -(n : Int))
  | '+' :: rest => (parseDigits rest).map (fun n => (n : Int))
  | cs => (parseDigits cs).map (fun n => (n : Int))

/-- `os.path.basename(p)`: the part after the last `/`. -/
def pyBasename (p : String) : String :=
  String.mk ((splitOnChar '/' p.data).getLastD [])

/-- The sort key `int(x.split("-")[1])` of line 648, also used to recover
`global_step` from the resumed path on line 659.  A name without a second
`-`-separated component raises `IndexError`; a non-integer component raises
`ValueError`. -/
def checkpointSortKey (s : String) : Except String Int :=
  match (splitOnChar '-' s.data).get? 1 with
  | none => Except.error "IndexError"
  | some comp =>
    match pyInt (String.mk comp) with
    | none => Except.error "ValueError"
    | some n => Except.ok n

/-- Total view of the sort key used to state the selection property; it
matches `checkpointSortKey` whenever that succeeds. -/
def keyOf (s : String) : Int :=
  match checkpointSortKey s with
  | Except.ok k => k
  | Except.error _ => 0

/-- Key every directory name, left to right, propagating the first exception,
as Python's `sorted(…, key=…)` does before comparing. -/
def keyAll : List String → Except String (List (Int × String))
  | [] => Except.ok []
  | d :: ds =>
    match checkpointSortKey d with
    | Except.error e => Except.error e
    | Except.ok k =>
      match keyAll ds with
      | Except.error e => Except.error e
      | Except.ok rest => Except.ok ((k, d) :: rest)

/-- Stable insertion of a keyed entry, placing it before the first entry with
a key not smaller than its own. -/
def orderedInsertKey (x : Int × String) : List (Int × String) → List (Int × String)
  | [] => [x]
  | y :: ys => if x.1 ≤ y.1 then x :: y :: ys else y :: orderedInsertKey x ys

/-- Stable ascending sort by key, as Python's `sorted`. -/
def pySortByKey : List (Int × String) → List (Int × String)
  | [] => []
  | x :: xs => orderedInsertKey x (pySortByKey xs)

/-- Lines 644-649: filter the listing of `output_dir` to names starting with
`"checkpoint"`, sort them by the integer after the first `-`, and take the
last one; `None` when the filtered list is empty. -/
def getLatestCheckpoint (entries : List String) : Except String (Option String) :=
  let dirs := entries.filter (fun d => strStartsWith d "checkpoint")
  match keyAll dirs with
  | Except.error e => Except.error e
  | Except.ok keyed => Except.ok ((pySortByKey keyed).map (fun kd => kd.2)).getLast?

/-- `math.ceil(len(train_dataloader) / accum)` of line 626; exact for the
integer magnitudes involved. -/
def numUpdateStepsPerEpoch (dataloaderLen accum : Nat) : Nat :=
  (dataloaderLen + accum - 1) / accum

/-- Line 662: `first_epoch = global_step // num_update_steps_per_epoch`. -/
def firstEpochOf (globalStep nupe : Nat) : Nat :=
  globalStep / nupe

/-- Lines 661 and 663:
`resume_step = (global_step * accum) % (num_update_steps_per_epoch * accum)`. -/
def resumeStepOf (globalStep accum nupe : Nat) : Nat :=
  (globalStep * accum) % (nupe * accum)

/-- `accelerator.load_state(os.path.join(output_dir, path))`: the collaborator
contract is that loading succeeds exactly when the checkpoint directory
exists under `output_dir`, and raises otherwise.  `existing` lists the
checkpoint directories that exist under `output_dir`. -/
def loadStateResult (existing : List String) (path : String) : Except String Unit :=
  if path ∈ existing then Except.ok ()
  else Except.error ("load_state: no such checkpoint " ++ path)

/-- Outcome of the resume block.  `fresh warnedId` is a fresh run
(`global_step = 0`, `first_epoch = 0`), with the printed warning carrying the
original `--resume_from_checkpoint` identifier when one was given.
`resumed` carries the selected path and the recomputed bookkeeping.
`fatal` is an uncaught exception. -/
inductive ResumeOutcome where
  | fresh (warnedId : Option String)
  | resumed (path : String) (globalStep firstEpoch resumeStep : Nat)
  | fatal (msg : String)
deriving DecidableEq, Repr

/-- Lines 657-663 once a path was selected: load the state (raising when the
checkpoint does not exist), recover `global_step` from the path's `-N`
suffix, and recompute the epoch bookkeeping.  The parsed step count is
non-negative because a `-`-split component never contains a sign. -/
def resumeFromPath (existing : List String) (dataloaderLen accum : Nat)
    (path : String) : ResumeOutcome :=
  match loadStateResult existing path with
  | Except.error e => ResumeOutcome.fatal e
  | Except.ok _ =>
    match checkpointSortKey path with
    | Except.error e => ResumeOutcome.fatal e
    | Except.ok g =>
      let gs := g.toNat
      let nupe := numUpdateStepsPerEpoch dataloaderLen accum
      ResumeOutcome.resumed path gs (firstEpochOf gs nupe) (resumeStepOf gs accum nupe)

/-- The resume block, lines 641-663.  `resumeFrom` is
`args.resume_from_checkpoint` (`none` when not given), `entries` is
`os.listdir(args.output_dir)`, `existing` the loadable checkpoint directories
under `output_dir`.  An explicit identifier is reduced to its basename and
loaded without any existence check; only the `"latest"` branch can yield
`path = None` and hence the fresh-run fallback. -/
def resolveResume (resumeFrom : Option String) (entries existing : List String)
    (dataloaderLen accum : Nat) : ResumeOutcome :=
  match resumeFrom with
  | none => ResumeOutcome.fresh none
  | some rid =>
    match (if rid ≠ "latest" then Except.ok (some (pyBasename rid))
        else getLatestCheckpoint entries : Except String (Option String)) with
    | Except.error e => ResumeOutcome.fatal e
    | Except.ok none => ResumeOutcome.fresh (some rid)
    | Except.ok (some path) => resumeFromPath existing dataloaderLen accum path

/-! ## The epoch loop's resume skip (script lines 672-677)

Batches are identified by natural numbers; an epoch's dataloader ordering is
the list of batch identifiers in the order `enumerate(train_dataloader)`
yields them.  (`DataLoader(..., shuffle=True)` on line 593 draws a fresh,
unseeded shuffle for every run and epoch.) -/

inductive BatchAction where
  /-- the `continue` branch: no forward pass, no backward pass, no optimizer
  work for this batch -/
  | skipped : BatchAction
  /-- the batch is fully processed -/
  | processed (b : Nat) : BatchAction
deriving DecidableEq, Repr

/-- The body of `for step, batch in enumerate(train_dataloader)` restricted to
the resume check of lines 674-677, starting from step index `step`. -/
def epochStepsFrom (resuming isFirstEpoch : Bool) (resumeStep : Nat) :
    Nat → List Nat → List BatchAction
  | _, [] => []
  | step, b :: rest =>
    (if resuming && isFirstEpoch && decide (step < resumeStep) then BatchAction.skipped
     else BatchAction.processed b) ::
      epochStepsFrom resuming isFirstEpoch resumeStep (step + 1) rest

/-- One epoch's actions, starting from step index 0. -/
def epochBatchActions (resuming isFirstEpoch : Bool) (resumeStep : Nat)
    (order : List Nat) : List BatchAction :=
  epochStepsFrom resuming isFirstEpoch resumeStep 0 order

/-- The batches an epoch actually processes, in order. -/
def consumedBatches (acts : List BatchAction) : List Nat :=
  acts.filterMap (fun a =>
    match a with
    | BatchAction.skipped => none
    | BatchAction.processed b => some b)

/-- How many batches were skipped. -/
def skippedCount (acts : List BatchAction) : Nat :=
  acts.countP (fun a =>
    match a with
    | BatchAction.skipped => true
    | BatchAction.processed _ => false)

/-! ## Micro-step bookkeeping at the accumulation boundary (script lines 714-727)

The effective state-changing actions of one micro-step.  The script calls
`optimizer.step()`, `lr_scheduler.step()` and `optimizer.zero_grad()` on
every micro-step, but all three objects come from `accelerator.prepare` and
the body runs inside `accelerator.accumulate(model)`, whose collaborator
contract (accelerate 0.17-0.20, the version window the script supports: it
imports `ProjectConfiguration` from `accelerate.utils`, added in 0.17, and
passes the `logging_dir` keyword to `Accelerator`, removed in 0.21) is:
`sync_gradients` is true exactly on every `accum_steps`-th micro-step; while
it is false the prepared `optimizer.step()` and `optimizer.zero_grad()` are
no-ops, and the prepared `lr_scheduler.step()` returns without stepping the
underlying scheduler (it only bumps a `_step_count` warning counter, which
does not move the learning rate).  So each of the three wrapped calls takes
effect only at the synchronisation boundary, exactly like the
`sync_gradients`-guarded clip, EMA step and `global_step` increment. -/

inductive OptimAction where
  | clipGrad      -- `accelerator.clip_grad_norm_(model.parameters(), 1.0)`
  | optimStep     -- an effective `optimizer.step()`
  | lrSchedStep   -- one advance of the learning-rate schedule
  | zeroGrad      -- an effective `optimizer.zero_grad()`
  | emaStep       -- `ema_model.step(model.parameters())`
  | incGlobalStep -- `global_step += 1`
deriving DecidableEq, Repr

/-- Effective actions of micro-step `i` (0-based), from lines 714-727: each
call site in source order, emitting an action exactly when the call takes
effect under the prepared-object contract above. -/
def microStepActions (accumSteps : Nat) (useEma : Bool) (i : Nat) : List OptimAction :=
  let sync := (i + 1) % accumSteps = 0
  (if sync then [OptimAction.clipGrad] else []) ++
  (if sync then [OptimAction.optimStep] else []) ++
  (if sync then [OptimAction.lrSchedStep] else []) ++
  (if sync then [OptimAction.zeroGrad] else []) ++
  (if sync then
    (if useEma then [OptimAction.emaStep] else []) ++ [OptimAction.incGlobalStep]
   else [])

/-- The actions of `count` consecutive micro-steps starting at index `start`. -/
def runMicroStepsFrom (accumSteps : Nat) (useEma : Bool) : Nat → Nat → List OptimAction
  | _, 0 => []
  | start, count + 1 =>
    microStepActions accumSteps useEma start ++
      runMicroStepsFrom accumSteps useEma (start + 1) count

/-- The actions of the first `n` micro-steps of the loop. -/
def runMicroSteps (accumSteps : Nat) (useEma : Bool) (n : Nat) : List OptimAction :=
  runMicroStepsFrom accumSteps useEma 0 n

/-! ## The EMA store / copy_to / restore blocks (script lines 797-820 and 838-854)

Live parameters are a list of rationals.  The `EMAModel` collaborator
(diffusers) keeps a shadow copy and a one-slot `store` buffer:
`store(params)` saves a copy of the given parameters, `copy_to(params)`
overwrites the given parameters with the shadow, `restore(params)` writes the
stored copy back.  Both script blocks run
`store`/`copy_to` … fallible work … `restore` as straight-line code with no
`try`/`finally`, so an exception in the work skips the `restore`. -/

abbrev Params := List ℚ

structure EMAState where
  shadowParams : Params
  tempStoredParams : Option Params
deriving DecidableEq, Repr

/-- `EMAModel.store(parameters)`. -/
def emaStore (ema : EMAState) (params : Params) : EMAState :=
  { ema with tempStoredParams := some params }

/-- `EMAModel.copy_to(parameters)`: the new value of the live parameters. -/
def emaCopyTo (ema : EMAState) (_params : Params) : Params :=
  ema.shadowParams

/-- `EMAModel.restore(parameters)`: the new value of the live parameters
(when nothing was stored the live parameters are left alone). -/
def emaRestore (ema : EMAState) (params : Params) : Params :=
  ema.tempStoredParams.getD params

/-- One evaluation/saving block (image sampling, lines 797-820, and model
saving, lines 838-854, have the same shape): optionally swap in the EMA
shadow, run the fallible work (`pipeline(...)` or `save_pretrained`), then
optionally restore.  `workRaises` says whether the work raises.  On the error
path the exception propagates with the live parameters as they are at that
moment (`Except.error` carries them); no `restore` runs. -/
def emaScopedBlock (useEma workRaises : Bool) (ema : EMAState) (live : Params) :
    Except Params (Params × EMAState) :=
  let ema1 := if useEma then emaStore ema live else ema
  let live1 := if useEma then emaCopyTo ema1 live else live
  if workRaises then Except.error live1
  else
    let live2 := if useEma then emaRestore ema1 live1 else live1
    Except.ok (live2, ema1)

/-- The live parameters after the block, on either exit path. -/
def liveAfterBlock (r : Except Params (Params × EMAState)) : Params :=
  match r with
  | Except.error l => l
  | Except.ok (l, _) => l

/-! ## Periodic image sampling, seeding (script lines 810-817) -/

/-- `torch.Generator(device=pipeline.device).manual_seed(0)`: the generator
state is determined by the literal seed 0. -/
def manualSeedZeroGenerator : Nat := 0

/-- The sampling invocation of lines 810-817.  The `DDPMPipeline` built from
the (possibly EMA-swapped) network and the scheduler is an external
collaborator, abstracted as a deterministic function of the generator seed,
the batch size and the inference step count (the network parameters and
scheduler configuration are captured in the closure).  The epoch number and
the training loop's RNG state are in scope at the call site but are not
passed to the pipeline. -/
def sampleInvocation (pipeline : Nat → Nat → Nat → List ℚ)
    (evalBatchSize numInferenceSteps _epoch _trainRngState : Nat) : List ℚ :=
  pipeline manualSeedZeroGenerator evalBatchSize numInferenceSteps

end TrainUnconditional

deriving instance DecidableEq for Except

namespace TrainUnconditional

/-! ## Helper lemmas -/

lemma sum_mseLossNone_self : ∀ l : List ℚ, (mseLossNone l l).sum = 0 := by
  intro l
  induction l with
  | nil => rfl
  | cons x xs ih =>
    show ((x - x) ^ 2 :: mseLossNone xs xs).sum = 0
    rw [List.sum_cons, ih, sub_self]
    ring

lemma sum_flatten_mseLossNoneBatch_self : ∀ b : List (List ℚ),
    (mseLossNoneBatch b b).flatten.sum = 0 := by
  intro b
  induction b with
  | nil => rfl
  | cons s rest ih =>
    show ((mseLossNone s s :: mseLossNoneBatch rest rest).flatten).sum = 0
    rw [List.flatten_cons, List.sum_append, sum_mseLossNone_self, ih, add_zero]

lemma map_mul_mseLossNone (w : ℚ) : ∀ ps cs : List ℚ,
    (mseLossNone ps cs).map (fun e => w * e)
      = List.zipWith (fun p c => w * (p - c) ^ 2) ps cs := by
  intro ps
  induction ps with
  | nil => intro cs; simp [mseLossNone]
  | cons p pst ih =>
    intro cs
    cases cs with
    | nil => simp [mseLossNone]
    | cons c cst => simpa [mseLossNone] using ih cst

lemma weighted_zip_eq (arr : List ℚ) : ∀ (ts : List Nat) (pred clean : List (List ℚ)),
    List.zipWith (fun w es => es.map (fun e => w * e))
      ((ts.map (fun t => arr.getD t 0)).map (fun a => a / (1 - a)))
      (mseLossNoneBatch pred clean)
    = List.zipWith (fun t pc => List.zipWith
        (fun p c => (arr.getD t 0 / (1 - arr.getD t 0)) * (p - c) ^ 2) pc.1 pc.2)
      ts (pred.zip clean) := by
  intro ts
  induction ts with
  | nil => intro pred clean; simp [mseLossNoneBatch]
  | cons t tst ih =>
    intro pred clean
    cases pred with
    | nil => simp [mseLossNoneBatch]
    | cons ps predt =>
      cases clean with
      | nil => simp [mseLossNoneBatch]
      | cons cs cleant =>
        simpa [mseLossNoneBatch, map_mul_mseLossNone] using ih predt cleant

/-! ## Claim theorems -/

/-- C10: the image-sampling run of lines 810-817 drives the pipeline with a
generator freshly seeded with the literal 0 on every invocation, so two
invocations sharing the pipeline (same network parameters and scheduler
configuration), batch size and inference step count produce identical image
batches, whatever the epoch number or the training loop's RNG state; the
seed passed is exactly 0. -/
theorem C10_sampling_reseeded_deterministic
    (pipeline : Nat → Nat → Nat → List ℚ) (bs steps e1 r1 e2 r2 : Nat) :
    sampleInvocation pipeline bs steps e1 r1 = sampleInvocation pipeline bs steps e2 r2
      ∧ sampleInvocation pipeline bs steps e1 r1 = pipeline 0 bs steps :=
  ⟨rfl, rfl⟩

/-- C1 counterexample: with EMA enabled, live parameters `[1]`, EMA shadow
`[2]`, and a sampling pipeline that raises, the evaluation block of lines
797-820 propagates the exception while the live parameters still hold the
shadow `[2] ≠ [1]`: no `restore` runs on the error exit path, falsifying the
claim that the original parameters are restored on every exit path. -/
theorem C1_restore_counterexample :
    emaScopedBlock true true ⟨[2], none⟩ [1] = Except.error [2]
      ∧ liveAfterBlock (emaScopedBlock true true ⟨[2], none⟩ [1]) ≠ [1] := by
  decide

/-- C1 amended: the store/copy_to/restore sequence of lines 797-820 and
838-854 restores the original live parameters only on the normal exit path;
when the guarded work raises with EMA enabled, the exception propagates with
the live parameters left equal to the EMA shadow (the `restore` call is
skipped). -/
theorem C1_restore_normal_exit_only (useEma : Bool) (ema : EMAState) (live : Params) :
    emaScopedBlock useEma false ema live
        = Except.ok (live, if useEma then emaStore ema live else ema)
      ∧ liveAfterBlock (emaScopedBlock useEma false ema live) = live
      ∧ emaScopedBlock true true ema live = Except.error ema.shadowParams := by
  cases useEma <;>
    simp [emaScopedBlock, emaStore, emaCopyTo, emaRestore, liveAfterBlock]

/-- C6: in `"epsilon"` mode (line 701) the training loss is the unweighted
mean squared error between the model output and the injected noise, and a
prediction exactly equal to the noise yields loss 0. -/
theorem C6_epsilon_loss_unweighted_mse
    (alphasCumprod : List ℚ) (timesteps : List Nat)
    (pred noise clean : List (List ℚ)) :
    trainingLoss "epsilon" alphasCumprod timesteps pred noise clean
        = Except.ok (unweightedMSE pred noise)
      ∧ trainingLoss "epsilon" alphasCumprod timesteps noise noise clean
        = Except.ok 0 := by
  constructor
  · rfl
  · show Except.ok (mseLossMeanBatch noise noise) = Except.ok 0
    have h : mseLossMeanBatch noise noise = 0 := by
      unfold mseLossMeanBatch tensorMean
      rw [sum_flatten_mseLossNoneBatch_self, zero_div]
    rw [h]

/-- C5: in `"sample"` mode (lines 702-710) the training loss equals the mean
over all elements of `snr_weight * (prediction - clean)^2`, where each
sample's weight is `alpha_bar_t / (1 - alpha_bar_t)` for its own timestep,
applied elementwise before the mean reduction, and the denominator is the
raw element count (no normalisation by the weights). -/
theorem C5_sample_loss_snr_weighted
    (alphasCumprod : List ℚ) (timesteps : List Nat)
    (pred noise clean : List (List ℚ)) :
    trainingLoss "sample" alphasCumprod timesteps pred noise clean
      = Except.ok (sampleLossSpec alphasCumprod timesteps pred clean) := by
  show Except.ok (sampleLoss alphasCumprod timesteps pred clean)
    = Except.ok (sampleLossSpec alphasCumprod timesteps pred clean)
  have key := weighted_zip_eq alphasCumprod timesteps pred clean
  have h : sampleLoss alphasCumprod timesteps pred clean
      = sampleLossSpec alphasCumprod timesteps pred clean := by
    calc sampleLoss alphasCumprod timesteps pred clean
        = tensorMean (List.zipWith (fun w es => es.map (fun e => w * e))
            ((timesteps.map (fun t => alphasCumprod.getD t 0)).map (fun a => a / (1 - a)))
            (mseLossNoneBatch pred clean)) := rfl
      _ = tensorMean (List.zipWith (fun t pc => List.zipWith
            (fun p c =>
              (alphasCumprod.getD t 0 / (1 - alphasCumprod.getD t 0)) * (p - c) ^ 2)
            pc.1 pc.2) timesteps (pred.zip clean)) := by rw [key]
      _ = sampleLossSpec alphasCumprod timesteps pred clean := rfl
  rw [h]

/-- C3 counterexample: resuming from `checkpoint-4` with a dataloader of 3
batches and `accum_steps = 2` (so `steps_per_epoch = 2` optimizer steps per
epoch), the program computes `first_epoch = 4 // 2 = 2` (line 662), while
the claim's formula `G*accum_steps // steps_per_epoch` gives `4*2 // 2 = 4`. -/
theorem C3_first_epoch_counterexample :
    resolveResume (some "checkpoint-4") [] ["checkpoint-4"] 3 2
        = ResumeOutcome.resumed "checkpoint-4" 4 2 0
      ∧ 4 * 2 / 2 = 4
      ∧ (2 : Nat) ≠ 4 * 2 / 2 := by
  decide

/-- C3 amended: on resume the program computes
`first_epoch = G / steps_per_epoch` (without the accumulation factor the
claim inserts) and `resume_step_in_epoch = (G*accum) % (steps_per_epoch*accum)`
as claimed; the latter equals `(G % steps_per_epoch) * accum`, and the pair
determines and is determined by `G` via
`G = first_epoch * steps_per_epoch + resume_step_in_epoch / accum`. -/
theorem C3_resume_position_formulas (G accum nupe : Nat)
    (ha : 0 < accum) (_hn : 0 < nupe) :
    firstEpochOf G nupe = G / nupe
      ∧ resumeStepOf G accum nupe = (G % nupe) * accum
      ∧ firstEpochOf G nupe * nupe + resumeStepOf G accum nupe / accum = G := by
  have hmod : resumeStepOf G accum nupe = (G % nupe) * accum := by
    simpa [resumeStepOf] using Nat.mul_mod_mul_right accum G nupe
  refine ⟨rfl, hmod, ?_⟩
  rw [hmod, Nat.mul_div_cancel _ ha]
  show G / nupe * nupe + G % nupe = G
  exact Nat.div_add_mod' G nupe

/-- Witness for C3: at `G = 7`, `accum = 2`, `steps_per_epoch = 3` the
amended formulas hold concretely. -/
theorem C3_resume_position_formulas_witness :
    firstEpochOf 7 3 = 7 / 3
      ∧ resumeStepOf 7 2 3 = 7 % 3 * 2
      ∧ firstEpochOf 7 3 * 3 + resumeStepOf 7 2 3 / 2 = 7 :=
  C3_resume_position_formulas 7 2 3 (by decide) (by decide)

/-! ## C7: actions at the accumulation boundary -/

/-- Actions performed, in order, at a synchronisation boundary. -/
def boundaryActions (useEma : Bool) : List OptimAction :=
  [OptimAction.clipGrad, OptimAction.optimStep, OptimAction.lrSchedStep,
   OptimAction.zeroGrad]
  ++ (if useEma then [OptimAction.emaStep] else [])
  ++ [OptimAction.incGlobalStep]

lemma succ_mod_eq (i m r : Nat) (h : i % (m + 1) = r) (hr : r < m + 1) :
    (i + 1) % (m + 1) = (r + 1) % (m + 1) := by
  have h2 : (i + 1) % (m + 1) = (i % (m + 1) + 1 % (m + 1)) % (m + 1) :=
    Nat.add_mod i 1 (m + 1)
  have h3 : (r + 1) % (m + 1) = (r % (m + 1) + 1 % (m + 1)) % (m + 1) :=
    Nat.add_mod r 1 (m + 1)
  rw [h2, h, h3, Nat.mod_eq_of_lt hr]

lemma runMicroStepsFrom_add (accum : Nat) (ema : Bool) :
    ∀ (p q i : Nat), runMicroStepsFrom accum ema i (p + q)
      = runMicroStepsFrom accum ema i p ++ runMicroStepsFrom accum ema (i + p) q := by
  intro p
  induction p with
  | zero => intro q i; simp [runMicroStepsFrom]
  | succ p ih =>
    intro q i
    have hc : p + 1 + q = (p + q) + 1 := by omega
    have hidx : i + (p + 1) = (i + 1) + p := by omega
    rw [hc, hidx]
    show microStepActions accum ema i ++ runMicroStepsFrom accum ema (i + 1) (p + q)
      = (microStepActions accum ema i ++ runMicroStepsFrom accum ema (i + 1) p)
        ++ runMicroStepsFrom accum ema ((i + 1) + p) q
    rw [ih q (i + 1), List.append_assoc]

lemma microStepActions_boundary (m : Nat) (ema : Bool) (i : Nat)
    (h : (i + 1) % (m + 1) = 0) :
    microStepActions (m + 1) ema i = boundaryActions ema := by
  simp [microStepActions, boundaryActions, h]

lemma microStepActions_inner (m : Nat) (ema : Bool) (i : Nat)
    (h : (i + 1) % (m + 1) ≠ 0) :
    microStepActions (m + 1) ema i = [] := by
  simp [microStepActions, h]

lemma runMicroStepsFrom_window (m : Nat) (ema : Bool) :
    ∀ (j i : Nat), j ≤ m → i % (m + 1) = m - j →
      runMicroStepsFrom (m + 1) ema i (j + 1) = boundaryActions ema := by
  intro j
  induction j with
  | zero =>
    intro i _ hmod
    have hsync : (i + 1) % (m + 1) = 0 := by
      rw [succ_mod_eq i m m (by simpa using hmod) (by omega)]
      exact Nat.mod_self (m + 1)
    show microStepActions (m + 1) ema i ++ [] = _
    rw [microStepActions_boundary m ema i hsync]
    simp
  | succ j ih =>
    intro i hj hmod
    have hstep : (i + 1) % (m + 1) = m - j := by
      have h1 : (i + 1) % (m + 1) = (m - (j + 1) + 1) % (m + 1) :=
        succ_mod_eq i m (m - (j + 1)) hmod (by omega)
      have h2 : m - (j + 1) + 1 = m - j := by omega
      rw [h1, h2, Nat.mod_eq_of_lt (by omega)]
    have hnz : (i + 1) % (m + 1) ≠ 0 := by
      rw [hstep]; omega
    show microStepActions (m + 1) ema i ++ runMicroStepsFrom (m + 1) ema (i + 1) (j + 1) = _
    rw [microStepActions_inner m ema i hnz, ih (i + 1) (by omega) hstep]
    simp

lemma runMicroStepsFrom_blocks (m : Nat) (ema : Bool) :
    ∀ (n i : Nat), i % (m + 1) = 0 →
      runMicroStepsFrom (m + 1) ema i (n * (m + 1))
        = (List.replicate n (boundaryActions ema)).flatten := by
  intro n
  induction n with
  | zero => intro i _; simp [runMicroStepsFrom]
  | succ n ih =>
    intro i hmod
    have hc : (n + 1) * (m + 1) = (m + 1) + n * (m + 1) := by ring
    rw [hc, runMicroStepsFrom_add]
    have hwin : runMicroStepsFrom (m + 1) ema i (m + 1) = boundaryActions ema :=
      runMicroStepsFrom_window m ema m i (le_refl m) (by simpa using hmod)
    have hnext : (i + (m + 1)) % (m + 1) = 0 := by
      rw [Nat.add_mod_right]; exact hmod
    rw [hwin, ih (i + (m + 1)) hnext]
    simp [List.replicate_succ]

/-- C7: exactly once per `accum_steps` micro-steps — at each
optimization-step boundary and not at the intervening micro-steps — the
loop performs, in this order: gradient-norm clip to cap 1.0, optimizer
step, one LR-schedule advance, gradient zeroing, EMA-shadow step (when EMA
is enabled), and `global_step` increment: over `n` optimization steps the
effective action trace is exactly `n` copies of that boundary block, and an
intervening micro-step contributes no effective action at all. -/
theorem C7_boundary_actions_once_per_window (accum n : Nat) (useEma : Bool)
    (h : 0 < accum) :
    runMicroSteps accum useEma (n * accum)
        = (List.replicate n (boundaryActions useEma)).flatten
      ∧ ∀ i, (i + 1) % accum ≠ 0 → microStepActions accum useEma i = [] := by
  obtain ⟨m, rfl⟩ : ∃ m, accum = m + 1 := ⟨accum - 1, by omega⟩
  constructor
  · have hblocks := runMicroStepsFrom_blocks m useEma n 0 (Nat.zero_mod (m + 1))
    simpa [runMicroSteps] using hblocks
  · intro i hi
    exact microStepActions_inner m useEma i hi

/-- Witness for C7: two optimization steps at `accum_steps = 2` with EMA
enabled produce exactly two boundary blocks in the claimed order, and no
intervening micro-step contributes an action. -/
theorem C7_boundary_actions_once_per_window_witness :
    runMicroSteps 2 true (2 * 2) = (List.replicate 2 (boundaryActions true)).flatten
      ∧ ∀ i, (i + 1) % 2 ≠ 0 → microStepActions 2 true i = [] :=
  C7_boundary_actions_once_per_window 2 2 true (by decide)

/-! ## C4: the resume skip inside the first resumed epoch -/

lemma consumedBatches_epochStepsFrom (rs : Nat) :
    ∀ (order : List Nat) (n : Nat),
      consumedBatches (epochStepsFrom true true rs n order) = order.drop (rs - n) := by
  intro order
  induction order with
  | nil => intro n; simp [epochStepsFrom, consumedBatches]
  | cons b bs ih =>
    intro n
    by_cases hlt : n < rs
    · have hif : (true && true && decide (n < rs)) = true := by simp [hlt]
      show consumedBatches ((if true && true && decide (n < rs) then BatchAction.skipped
        else BatchAction.processed b) :: epochStepsFrom true true rs (n + 1) bs)
        = (b :: bs).drop (rs - n)
      rw [hif]
      show consumedBatches (BatchAction.skipped :: epochStepsFrom true true rs (n + 1) bs)
        = (b :: bs).drop (rs - n)
      have hdrop : rs - n = (rs - (n + 1)) + 1 := by omega
      rw [hdrop]
      show consumedBatches (epochStepsFrom true true rs (n + 1) bs) = bs.drop (rs - (n + 1))
      exact ih (n + 1)
    · have hif : (true && true && decide (n < rs)) = false := by simp [hlt]
      show consumedBatches ((if true && true && decide (n < rs) then BatchAction.skipped
        else BatchAction.processed b) :: epochStepsFrom true true rs (n + 1) bs)
        = (b :: bs).drop (rs - n)
      rw [hif]
      show b :: consumedBatches (epochStepsFrom true true rs (n + 1) bs)
        = (b :: bs).drop (rs - n)
      rw [ih (n + 1)]
      have h1 : rs - n = 0 := by omega
      have h2 : rs - (n + 1) = 0 := by omega
      rw [h1, h2]
      rfl

lemma skippedCount_epochStepsFrom (rs : Nat) :
    ∀ (order : List Nat) (n : Nat),
      skippedCount (epochStepsFrom true true rs n order) = min (rs - n) order.length := by
  intro order
  induction order with
  | nil => intro n; simp [epochStepsFrom, skippedCount]
  | cons b bs ih =>
    intro n
    show skippedCount ((if true && true && decide (n < rs) then BatchAction.skipped
      else BatchAction.processed b) :: epochStepsFrom true true rs (n + 1) bs)
      = min (rs - n) (b :: bs).length
    by_cases hlt : n < rs
    · have hif : (true && true && decide (n < rs)) = true := by simp [hlt]
      rw [hif]
      show skippedCount (BatchAction.skipped :: epochStepsFrom true true rs (n + 1) bs)
        = min (rs - n) (b :: bs).length
      have hcount : skippedCount
          (BatchAction.skipped :: epochStepsFrom true true rs (n + 1) bs)
          = skippedCount (epochStepsFrom true true rs (n + 1) bs) + 1 := by
        simp [skippedCount]
      rw [hcount, ih (n + 1)]
      simp only [List.length_cons]
      omega
    · have hif : (true && true && decide (n < rs)) = false := by simp [hlt]
      rw [hif]
      show skippedCount (BatchAction.processed b :: epochStepsFrom true true rs (n + 1) bs)
        = min (rs - n) (b :: bs).length
      have hcount : skippedCount
          (BatchAction.processed b :: epochStepsFrom true true rs (n + 1) bs)
          = skippedCount (epochStepsFrom true true rs (n + 1) bs) := by
        simp [skippedCount]
      rw [hcount, ih (n + 1)]
      simp only [List.length_cons]
      omega

/-- Bound used by C4: the recomputed in-epoch resume step is always smaller
than the number of batches in an epoch. -/
lemma resumeStepOf_lt_len (L accum G : Nat) (ha : 0 < accum) (hL : 0 < L) :
    resumeStepOf G accum (numUpdateStepsPerEpoch L accum) < L := by
  set nupe := numUpdateStepsPerEpoch L accum with hnupe
  have hmod : resumeStepOf G accum nupe = (G % nupe) * accum := by
    simpa [resumeStepOf] using Nat.mul_mod_mul_right accum G nupe
  have hnupe1 : 1 ≤ nupe := by
    rw [hnupe]
    unfold numUpdateStepsPerEpoch
    have hnum : accum ≤ L + accum - 1 := by omega
    exact (Nat.one_le_div_iff ha).mpr hnum
  have hb : nupe * accum ≤ L + accum - 1 := by
    rw [hnupe]
    unfold numUpdateStepsPerEpoch
    exact Nat.div_mul_le_self (L + accum - 1) accum
  have hmlt : G % nupe < nupe := Nat.mod_lt G (by omega)
  have hle : (G % nupe) * accum ≤ (nupe - 1) * accum :=
    Nat.mul_le_mul_right accum (by omega)
  have hsub : (nupe - 1) * accum = nupe * accum - accum := Nat.sub_one_mul nupe accum
  omega

/-- C4 counterexample: `shuffle=True` on line 593 draws an independent,
unseeded epoch ordering for every run, so both `[0, 1]` and `[1, 0]` are
valid orderings of the same 2-element dataset for the uninterrupted and the
resumed run respectively.  With `resume_step = 1`, the uninterrupted run's
remaining consumption after its first batch is `[1]`, while the resumed run
skips one batch of its own ordering and consumes `[0]`: the claimed equality
of post-resume batch sequences fails. -/
theorem C4_resume_skip_counterexample :
    List.Perm [1, 0] [0, 1]
      ∧ consumedBatches (epochBatchActions true true 1 [0, 1]) = [1]
      ∧ ([0, 1].drop 1 : List Nat) = [1]
      ∧ consumedBatches (epochBatchActions true true 1 [1, 0]) = [0]
      ∧ ([0] : List Nat) ≠ [1] := by
  decide

/-- C4 amended: within the first resumed epoch the loop skips exactly
`resume_step_in_epoch` batches — performing no forward pass, backward pass
or optimizer work for them — and then consumes exactly the remaining batches
of its own (freshly shuffled) epoch ordering, in order.  Agreement with the
uninterrupted run's consumption is guaranteed only when the two runs' epoch
orderings coincide, which the unseeded `shuffle=True` dataloader does not
enforce. -/
theorem C4_resume_skip_exact (L accum G : Nat) (order : List Nat)
    (ha : 0 < accum) (hL : 0 < L) (hlen : order.length = L) :
    skippedCount (epochBatchActions true true
        (resumeStepOf G accum (numUpdateStepsPerEpoch L accum)) order)
      = resumeStepOf G accum (numUpdateStepsPerEpoch L accum)
    ∧ consumedBatches (epochBatchActions true true
        (resumeStepOf G accum (numUpdateStepsPerEpoch L accum)) order)
      = order.drop (resumeStepOf G accum (numUpdateStepsPerEpoch L accum)) := by
  have hbound := resumeStepOf_lt_len L accum G ha hL
  constructor
  · rw [epochBatchActions, skippedCount_epochStepsFrom]
    omega
  · rw [epochBatchActions, consumedBatches_epochStepsFrom]
    simp

/-- Witness for C4: a 3-batch epoch with `accum_steps = 2` resumed at
`global_step = 3` skips `resume_step = 2` batches and consumes the third. -/
theorem C4_resume_skip_exact_witness :
    skippedCount (epochBatchActions true true
        (resumeStepOf 3 2 (numUpdateStepsPerEpoch 3 2)) [10, 20, 30])
      = resumeStepOf 3 2 (numUpdateStepsPerEpoch 3 2)
    ∧ consumedBatches (epochBatchActions true true
        (resumeStepOf 3 2 (numUpdateStepsPerEpoch 3 2)) [10, 20, 30])
      = [10, 20, 30].drop (resumeStepOf 3 2 (numUpdateStepsPerEpoch 3 2)) :=
  C4_resume_skip_exact 3 2 3 [10, 20, 30] (by decide) (by decide) (by decide)

/-! ## C2 and C9: resume fallback scope and latest-checkpoint selection -/

/-- C2 counterexample: resuming from the explicit path `checkpoint-500` when
no such checkpoint exists does not fall back to a fresh run: the script only
checks `path is None` (possible only in the `"latest"` branch) and then calls
`accelerator.load_state` on the missing directory, which raises — a fatal
error, not the claimed warning-and-fresh-run. -/
theorem C2_missing_checkpoint_counterexample :
    resolveResume (some "checkpoint-500") [] [] 5 1
        = ResumeOutcome.fatal "load_state: no such checkpoint checkpoint-500"
      ∧ resolveResume (some "checkpoint-500") [] [] 5 1
        ≠ ResumeOutcome.fresh (some "checkpoint-500") := by
  decide

/-- C2 amended: the warning-and-fresh-run fallback happens exactly when the
resume request is the sentinel `"latest"` and the output directory holds no
entry starting with `"checkpoint"` (the warning carries the original
identifier); an explicit checkpoint path that does not exist instead reaches
`load_state`, whose exception terminates the run. -/
theorem C2_resume_fallback_scope (rid : String) (entries existing : List String)
    (dataloaderLen accum : Nat) :
    ((∀ d ∈ entries, strStartsWith d "checkpoint" = false) →
      resolveResume (some "latest") entries existing dataloaderLen accum
        = ResumeOutcome.fresh (some "latest"))
    ∧ (rid ≠ "latest" → pyBasename rid ∉ existing →
      resolveResume (some rid) entries existing dataloaderLen accum
        = ResumeOutcome.fatal ("load_state: no such checkpoint " ++ pyBasename rid)) := by
  constructor
  · intro h
    have hfil : entries.filter (fun d => strStartsWith d "checkpoint") = [] := by
      rw [List.filter_eq_nil_iff]
      intro d hd
      rw [h d hd]
      simp
    have hlatest : getLatestCheckpoint entries = Except.ok none := by
      unfold getLatestCheckpoint
      rw [hfil]
      rfl
    have hcond : ¬(("latest" : String) ≠ "latest") := fun hc => hc rfl
    simp only [resolveResume]
    rw [if_neg hcond, hlatest]
  · intro hne hnotin
    have hload : loadStateResult existing (pyBasename rid)
        = Except.error ("load_state: no such checkpoint " ++ pyBasename rid) := by
      unfold loadStateResult
      rw [if_neg hnotin]
    simp only [resolveResume]
    rw [if_pos hne]
    show resumeFromPath existing dataloaderLen accum (pyBasename rid)
      = ResumeOutcome.fatal ("load_state: no such checkpoint " ++ pyBasename rid)
    simp only [resumeFromPath]
    rw [hload]

/-- Witness for C2: with `output_dir` listing only `foo`, a `"latest"` resume
falls back fresh; an explicit resume from the nonexistent `mychk` is fatal. -/
theorem C2_resume_fallback_scope_witness :
    resolveResume (some "latest") ["foo"] [] 5 1 = ResumeOutcome.fresh (some "latest")
      ∧ resolveResume (some "mychk") ["foo"] [] 5 1
        = ResumeOutcome.fatal ("load_state: no such checkpoint " ++ pyBasename "mychk") :=
  ⟨(C2_resume_fallback_scope "mychk" ["foo"] [] 5 1).1 (by decide),
   (C2_resume_fallback_scope "mychk" ["foo"] [] 5 1).2 (by decide) (by decide)⟩

lemma keyAll_ok : ∀ l : List String,
    (∀ d ∈ l, ∃ k, checkpointSortKey d = Except.ok k) →
    keyAll l = Except.ok (l.map (fun d => (keyOf d, d))) := by
  intro l
  induction l with
  | nil => intro _; rfl
  | cons d ds ih =>
    intro h
    obtain ⟨k, hk⟩ := h d (by simp)
    have hkeyOf : keyOf d = k := by simp [keyOf, hk]
    have hrest := ih (fun x hx => h x (by simp [hx]))
    simp [keyAll, hk, hrest, hkeyOf]

lemma orderedInsertKey_ne_nil (x : Int × String) :
    ∀ l : List (Int × String), orderedInsertKey x l ≠ [] := by
  intro l
  cases l with
  | nil => simp [orderedInsertKey]
  | cons y ys =>
    simp only [orderedInsertKey]
    split <;> simp

lemma mem_orderedInsertKey (x z : Int × String) :
    ∀ l : List (Int × String), z ∈ orderedInsertKey x l ↔ z = x ∨ z ∈ l := by
  intro l
  induction l with
  | nil => simp [orderedInsertKey]
  | cons y ys ih =>
    simp only [orderedInsertKey]
    split
    · simp [List.mem_cons]
    · simp only [List.mem_cons, ih]
      tauto

lemma mem_pySortByKey (z : Int × String) :
    ∀ l : List (Int × String), z ∈ pySortByKey l ↔ z ∈ l := by
  intro l
  induction l with
  | nil => simp [pySortByKey]
  | cons x xs ih => simp [pySortByKey, mem_orderedInsertKey, ih]

lemma getLast?_cons_ne (y : Int × String) (t : List (Int × String)) (h : t ≠ []) :
    (y :: t).getLast? = t.getLast? := by
  cases t with
  | nil => exact absurd rfl h
  | cons a as => exact List.getLast?_cons_cons

lemma getLast?_orderedInsertKey (x : Int × String) :
    ∀ (s : List (Int × String)) (m : Int × String), s.getLast? = some m →
      (∀ z ∈ s, z.1 ≤ m.1) →
      (orderedInsertKey x s).getLast? = some (if x.1 ≤ m.1 then m else x) := by
  intro s
  induction s with
  | nil => intro m hm _; simp at hm
  | cons y ys ih =>
    intro m hm hmax
    cases ys with
    | nil =>
      have hym : y = m := by simpa using hm
      subst hym
      by_cases hxy : x.1 ≤ y.1
      · rw [show orderedInsertKey x [y] = [x, y] from by simp [orderedInsertKey, hxy]]
        rw [if_pos hxy]
        simp
      · rw [show orderedInsertKey x [y] = [y, x] from by simp [orderedInsertKey, hxy]]
        rw [if_neg hxy]
        simp
    | cons z zs =>
      have hm' : (z :: zs).getLast? = some m := by
        rw [← List.getLast?_cons_cons (a := y)]
        exact hm
      have hymax : y.1 ≤ m.1 := hmax y (by simp)
      have hmax' : ∀ w ∈ z :: zs, w.1 ≤ m.1 := fun w hw => hmax w (by simp [hw])
      by_cases hxy : x.1 ≤ y.1
      · have hres : orderedInsertKey x (y :: z :: zs) = x :: y :: z :: zs := by
          simp [orderedInsertKey, hxy]
        rw [hres, if_pos (le_trans hxy hymax)]
        rw [List.getLast?_cons_cons, List.getLast?_cons_cons]
        exact hm'
      · have hres : orderedInsertKey x (y :: z :: zs)
            = y :: orderedInsertKey x (z :: zs) := by
          simp [orderedInsertKey, hxy]
        rw [hres, getLast?_cons_ne y _ (orderedInsertKey_ne_nil x (z :: zs))]
        exact ih m hm' hmax'

lemma pySortByKey_max : ∀ l : List (Int × String), l ≠ [] →
    ∃ m, (pySortByKey l).getLast? = some m ∧ m ∈ l ∧ ∀ z ∈ l, z.1 ≤ m.1 := by
  intro l
  induction l with
  | nil => intro h; exact absurd rfl h
  | cons x xs ih =>
    intro _
    by_cases hxs : xs = []
    · subst hxs
      refine ⟨x, ?_, by simp, ?_⟩
      · rfl
      · intro z hz
        have hzx : z = x := by simpa using hz
        rw [hzx]
    · obtain ⟨m, hlast, hmem, hmax⟩ := ih hxs
      have hmaxsort : ∀ z ∈ pySortByKey xs, z.1 ≤ m.1 :=
        fun z hz => hmax z ((mem_pySortByKey z xs).mp hz)
      have hins := getLast?_orderedInsertKey x (pySortByKey xs) m hlast hmaxsort
      by_cases hxm : x.1 ≤ m.1
      · refine ⟨m, ?_, List.mem_cons_of_mem x hmem, ?_⟩
        · show (orderedInsertKey x (pySortByKey xs)).getLast? = some m
          rw [hins, if_pos hxm]
        · intro z hz
          rcases List.mem_cons.mp hz with rfl | hz'
          · exact hxm
          · exact hmax z hz'
      · refine ⟨x, ?_, List.mem_cons_self x xs, ?_⟩
        · show (orderedInsertKey x (pySortByKey xs)).getLast? = some x
          rw [hins, if_neg hxm]
        · intro z hz
          rcases List.mem_cons.mp hz with rfl | hz'
          · exact le_refl z.1
          · exact le_trans (hmax z hz') (le_of_not_le hxm)

/-- C9 counterexample: with the well-formed entry `checkpoint-5` present, the
additional entry `checkpointX` (which starts with `"checkpoint"` but has no
`-N` suffix) makes `int(x.split("-")[1])` raise during the sort, so the
`"latest"` selection terminates with an exception instead of selecting
`checkpoint-5` as the claim requires. -/
theorem C9_latest_selection_counterexample :
    strStartsWith "checkpoint-5" "checkpoint" = true
      ∧ checkpointSortKey "checkpoint-5" = Except.ok 5
      ∧ getLatestCheckpoint ["checkpoint-5", "checkpointX"] = Except.error "IndexError"
      ∧ getLatestCheckpoint ["checkpoint-5", "checkpointX"]
        ≠ Except.ok (some "checkpoint-5") := by
  decide

/-- C9 amended: when at least one entry starts with `"checkpoint"` and every
entry starting with `"checkpoint"` parses as `prefix-N` with an integer after
the first `-`, the selected checkpoint is one with the greatest integer
suffix (not the lexicographically last); when no entry starts with
`"checkpoint"`, the selection is `None` and the run falls back to fresh.  An
entry starting with `"checkpoint"` that does not parse aborts the selection
with an exception. -/
theorem C9_latest_selection_max_suffix (entries : List String) :
    ((∃ e ∈ entries, strStartsWith e "checkpoint" = true) →
      (∀ d ∈ entries, strStartsWith d "checkpoint" = true →
        ∃ k, checkpointSortKey d = Except.ok k) →
      ∃ e, getLatestCheckpoint entries = Except.ok (some e)
        ∧ e ∈ entries ∧ strStartsWith e "checkpoint" = true
        ∧ ∀ d ∈ entries, strStartsWith d "checkpoint" = true → keyOf d ≤ keyOf e)
    ∧ ((∀ d ∈ entries, strStartsWith d "checkpoint" = false) →
      getLatestCheckpoint entries = Except.ok none) := by
  constructor
  · rintro ⟨e0, he0, hs0⟩ hok
    have hmem_dirs : ∀ d, d ∈ entries.filter (fun d => strStartsWith d "checkpoint")
        ↔ d ∈ entries ∧ strStartsWith d "checkpoint" = true := by
      intro d
      simp [List.mem_filter]
    have hne : entries.filter (fun d => strStartsWith d "checkpoint") ≠ [] := by
      have hmem : e0 ∈ entries.filter (fun d => strStartsWith d "checkpoint") :=
        (hmem_dirs e0).mpr ⟨he0, hs0⟩
      intro hnil
      rw [hnil] at hmem
      exact absurd hmem (List.not_mem_nil e0)
    have hkeyed : keyAll (entries.filter (fun d => strStartsWith d "checkpoint"))
        = Except.ok ((entries.filter (fun d => strStartsWith d "checkpoint")).map
            (fun d => (keyOf d, d))) :=
      keyAll_ok _ (fun d hd => hok d ((hmem_dirs d).mp hd).1 ((hmem_dirs d).mp hd).2)
    have hlne : (entries.filter (fun d => strStartsWith d "checkpoint")).map
        (fun d => (keyOf d, d)) ≠ [] := by
      simpa using hne
    obtain ⟨m, hlast, hmem, hmax⟩ := pySortByKey_max _ hlne
    obtain ⟨d0, hd0, hd0eq⟩ := List.mem_map.mp hmem
    have hsel : getLatestCheckpoint entries
        = Except.ok ((pySortByKey ((entries.filter
            (fun d => strStartsWith d "checkpoint")).map
              (fun d => (keyOf d, d)))).map (fun kd => kd.2)).getLast? := by
      simp only [getLatestCheckpoint]
      rw [hkeyed]
    rw [List.getLast?_map, hlast] at hsel
    refine ⟨m.2, hsel, ?_, ?_, ?_⟩
    · rw [← hd0eq]
      exact ((hmem_dirs d0).mp hd0).1
    · rw [← hd0eq]
      exact ((hmem_dirs d0).mp hd0).2
    · intro d hd hds
      have hdl : (keyOf d, d) ∈ (entries.filter
          (fun d => strStartsWith d "checkpoint")).map (fun d => (keyOf d, d)) :=
        List.mem_map.mpr ⟨d, (hmem_dirs d).mpr ⟨hd, hds⟩, rfl⟩
      have hledm := hmax (keyOf d, d) hdl
      have hm2 : keyOf m.2 = m.1 := by
        rw [← hd0eq]
      exact hm2 ▸ hledm
  · intro h
    have hfil : entries.filter (fun d => strStartsWith d "checkpoint") = [] := by
      rw [List.filter_eq_nil_iff]
      intro d hd
      rw [h d hd]
      simp
    unfold getLatestCheckpoint
    rw [hfil]
    rfl

/-- Witness for C9: among `checkpoint-9`, `checkpoint-10` and `other`, the
selection succeeds, picks an entry with the greatest integer suffix (namely
`checkpoint-10`, which lexicographic ordering would not pick), and a
directory listing with no `checkpoint` entry yields `None`. -/
theorem C9_latest_selection_max_suffix_witness :
    (∃ e, getLatestCheckpoint ["checkpoint-9", "checkpoint-10", "other"]
        = Except.ok (some e)
      ∧ e ∈ ["checkpoint-9", "checkpoint-10", "other"]
      ∧ strStartsWith e "checkpoint" = true
      ∧ ∀ d ∈ ["checkpoint-9", "checkpoint-10", "other"],
          strStartsWith d "checkpoint" = true → keyOf d ≤ keyOf e)
    ∧ getLatestCheckpoint ["data", "logs"] = Except.ok none :=
  ⟨(C9_latest_selection_max_suffix ["checkpoint-9", "checkpoint-10", "other"]).1
      ⟨"checkpoint-9", by decide, by decide⟩
      (by
        intro d hd hds
        rcases List.mem_cons.mp hd with rfl | hd'
        · exact ⟨9, by decide⟩
        rcases List.mem_cons.mp hd' with rfl | hd''
        · exact ⟨10, by decide⟩
        rcases List.mem_cons.mp hd'' with rfl | hd'''
        · exact absurd hds (by decide)
        · exact absurd hd''' (List.not_mem_nil d)),
   (C9_latest_selection_max_suffix ["data", "logs"]).2 (by decide)⟩

/-! ## C8: `_extract_into_tensor` -/

lemma unsqueezeTimes_shape : ∀ (n : Nat) (t : Tensor),
    (unsqueezeTimes n t).shape = t.shape ++ List.replicate n 1 := by
  intro n
  induction n with
  | zero => intro t; simp [unsqueezeTimes]
  | succ n ih =>
    intro t
    show (unsqueezeTimes n (unsqueezeLast t)).shape = t.shape ++ List.replicate (n + 1) 1
    rw [ih (unsqueezeLast t)]
    show (t.shape ++ [1]) ++ List.replicate n 1 = t.shape ++ List.replicate (n + 1) 1
    rw [List.append_assoc]
    rfl

lemma unsqueezeTimes_data_succ : ∀ (n : Nat) (t : Tensor) (idx : List Nat),
    (unsqueezeTimes (n + 1) t).data idx = t.data (idx.take t.shape.length) := by
  intro n
  induction n with
  | zero => intro t idx; rfl
  | succ n ih =>
    intro t idx
    show (unsqueezeTimes (n + 1) (unsqueezeLast t)).data idx = t.data (idx.take t.shape.length)
    have hlen : (unsqueezeLast t).shape.length = t.shape.length + 1 := by
      simp [unsqueezeLast]
    rw [ih (unsqueezeLast t) idx, hlen]
    show t.data ((idx.take (t.shape.length + 1)).take t.shape.length)
      = t.data (idx.take t.shape.length)
    rw [List.take_take, Nat.min_eq_left (Nat.le_succ t.shape.length)]

lemma getD_map_lookup (g : Nat → ℚ) : ∀ (l : List Nat) (i : Nat), i < l.length →
    (l.map g).getD i 0 = g (l.getD i 0) := by
  intro l
  induction l with
  | nil => intro i hi; simp at hi
  | cons a as ih =>
    intro i hi
    cases i with
    | zero => rfl
    | succ j =>
      show (as.map g).getD j 0 = g (as.getD j 0)
      exact ih j (by simpa using hi)

/-- C8: `_extract_into_tensor` on a coefficient array `arr`, in-range
timestep indices, and a broadcast shape whose leading dimension is the batch
length, returns a tensor of exactly the broadcast shape in which the element
at any multi-index `(i, j₂, …, jₖ)` is `arr[timesteps[i]]` (the lookup is
unsqueezed to rank `K` and expanded); an index batch containing any index
outside `[0, len(arr))` raises instead. -/
theorem C8_extract_into_tensor (arr : List ℚ) (ts srest restIdx : List Nat) (i : Nat)
    (hts : ∀ t ∈ ts, t < arr.length) (hi : i < ts.length) :
    (extractIntoTensor arr ts (ts.length :: srest)).map Tensor.shape
        = some (ts.length :: srest)
      ∧ elemAt (extractIntoTensor arr ts (ts.length :: srest)) (i :: restIdx)
        = some (arr.getD (ts.getD i 0) 0)
      ∧ ∀ ts2 : List Nat, (∃ t ∈ ts2, arr.length ≤ t) →
          extractIntoTensor arr ts2 (ts.length :: srest) = none := by
  have hall : ts.all (fun t => t < arr.length) = true := by
    rw [List.all_eq_true]
    intro t ht
    exact decide_eq_true (hts t ht)
  have hsel : indexSelect1d arr ts = some ⟨[ts.length],
      fun idx => (ts.map (fun t => arr.getD t 0)).getD (idx.getD 0 0) 0⟩ := by
    unfold indexSelect1d
    rw [if_pos hall]
  have hex : extractIntoTensor arr ts (ts.length :: srest)
      = some (expandTensor (unsqueezeUntil
          ⟨[ts.length], fun idx => (ts.map (fun t => arr.getD t 0)).getD (idx.getD 0 0) 0⟩
          (ts.length :: srest).length) (ts.length :: srest)) := by
    unfold extractIntoTensor
    rw [hsel]
    rfl
  refine ⟨?_, ?_, ?_⟩
  · rw [hex]
    rfl
  · rw [hex]
    show some ((expandTensor (unsqueezeTimes srest.length
        ⟨[ts.length], fun idx => (ts.map (fun t => arr.getD t 0)).getD (idx.getD 0 0) 0⟩)
        (ts.length :: srest)).data (i :: restIdx))
      = some (arr.getD (ts.getD i 0) 0)
    have hshape : (unsqueezeTimes srest.length
          ⟨[ts.length], fun idx => (ts.map (fun t => arr.getD t 0)).getD (idx.getD 0 0) 0⟩).shape
        = ts.length :: List.replicate srest.length 1 := by
      rw [unsqueezeTimes_shape]
      rfl
    have hzip : List.zipWith (fun s j => if s = 1 then 0 else j)
          (ts.length :: List.replicate srest.length 1) (i :: restIdx)
        = (if ts.length = 1 then 0 else i)
            :: List.zipWith (fun s j => if s = 1 then 0 else j)
                 (List.replicate srest.length 1) restIdx := rfl
    have hfi : (if ts.length = 1 then 0 else i) = i := by
      split
      · omega
      · rfl
    have hdata : ∀ v : List Nat, (unsqueezeTimes srest.length
          ⟨[ts.length], fun idx => (ts.map (fun t => arr.getD t 0)).getD (idx.getD 0 0) 0⟩).data
            (i :: v)
        = (ts.map (fun t => arr.getD t 0)).getD i 0 := by
      intro v
      cases hm : srest.length with
      | zero => rfl
      | succ m =>
        rw [unsqueezeTimes_data_succ]
        rfl
    show some ((unsqueezeTimes srest.length
        ⟨[ts.length], fun idx => (ts.map (fun t => arr.getD t 0)).getD (idx.getD 0 0) 0⟩).data
        (List.zipWith (fun s j => if s = 1 then 0 else j)
          (unsqueezeTimes srest.length
            ⟨[ts.length], fun idx => (ts.map (fun t => arr.getD t 0)).getD (idx.getD 0 0) 0⟩).shape
          (i :: restIdx)))
      = some (arr.getD (ts.getD i 0) 0)
    rw [hshape, hzip, hfi, hdata, getD_map_lookup _ ts i hi]
  · rintro ts2 ⟨t, ht, hge⟩
    have hall2 : ¬(ts2.all (fun t => t < arr.length) = true) := by
      rw [List.all_eq_true]
      intro hforall
      have hlt := hforall t ht
      rw [decide_eq_true_eq] at hlt
      omega
    unfold extractIntoTensor indexSelect1d
    rw [if_neg hall2]
    rfl

/-- Witness for C8: for `arr = [5, 7]`, timesteps `[1, 0, 1]` and broadcast
shape `(3, 1, 2)`, the element at multi-index `(2, 0, 1)` is
`arr[timesteps[2]] = 7`, the result has the broadcast shape, and any
out-of-range index batch fails. -/
theorem C8_extract_into_tensor_witness :
    (extractIntoTensor [5, 7] [1, 0, 1] ([1, 0, 1].length :: [1, 2])).map Tensor.shape
        = some ([1, 0, 1].length :: [1, 2])
      ∧ elemAt (extractIntoTensor [5, 7] [1, 0, 1] ([1, 0, 1].length :: [1, 2])) (2 :: [0, 1])
        = some (([5, 7] : List ℚ).getD ([1, 0, 1].getD 2 0) 0)
      ∧ ∀ ts2 : List Nat, (∃ t ∈ ts2, ([5, 7] : List ℚ).length ≤ t) →
          extractIntoTensor [5, 7] ts2 ([1, 0, 1].length :: [1, 2]) = none :=
  C8_extract_into_tensor [5, 7] [1, 0, 1] [1, 2] [0, 1] 2 (by decide) (by decide)

end TrainUnconditional
